import Mathlib

/-!
Verification of the A2Plus-assembly-to-MuJoCo scene compiler
(`src/A2PlusAssemblyToMujoco.py` of wills_freecad_macros).

The Python macro is shallowly embedded below.  Conventions used throughout:

* Python floats (FreeCAD doubles) are modelled as exact rationals `Frac`
  (a normalized `num/den` pair with executable arithmetic); floating-point
  rounding is outside the model, so "equal within tolerance" becomes exact
  equality of the rational values.
* Python exceptions (KeyError, IndexError, failed document lookups,
  attribute access on None, ...) are modelled by `Option`: a function
  returns `none` exactly when the corresponding Python code raises.
* The external FreeCAD collaborators (`App.getDocument`, `findObjects`,
  `Placement`, GUI shape colors) are modelled as read-only snapshots:
  `PartData` records what `part_info` extracts per part and `DocStore`
  records, per source file, the labelled objects a document lookup
  (`doc.findObjects(Label=...)[0].Placement`) can return.
* Python `str(x)` on these rationals is rendered by `frac_to_str`
  (injective on the exact values; Python would print a decimal form).
* Python dicts are association lists; `dict_insert` mirrors dict
  assignment (replace in place if the key exists, else append) and
  `alist_get` mirrors `d[k]` / `None`-on-missing lookups.
-/

/-- Exact rational number standing in for a Python float: a normalized
fraction with positive denominator.  All operations normalize, so the
derived structural equality coincides with value equality on the results
of the arithmetic below. -/
structure Frac where
  num : Int
  den : Int
deriving DecidableEq

/-- Normalize a numerator/denominator pair (gcd-reduce, make the
denominator positive; a zero denominator never arises on program paths
and is mapped to 0). -/
def fnorm (n d : Int) : Frac :=
  if d = 0 then ⟨0, 1⟩
  else
    let g : Int := Int.ofNat (Int.gcd n d)
    let s : Int := if d < 0 then -1 else 1
    ⟨s * n / g, s * d / g⟩

/-- Embed an integer as a `Frac`. -/
def fint (n : Int) : Frac := ⟨n, 1⟩

def fadd (a b : Frac) : Frac := fnorm (a.num * b.den + b.num * a.den) (a.den * b.den)

def fsub (a b : Frac) : Frac := fnorm (a.num * b.den - b.num * a.den) (a.den * b.den)

def fmul (a b : Frac) : Frac := fnorm (a.num * b.num) (a.den * b.den)

/-- Comparison (valid for the positive denominators produced by `fnorm`). -/
def fle (a b : Frac) : Bool := decide (a.num * b.den ≤ b.num * a.den)

/-- Python `max(a, b)` on two floats. -/
def fmax (a b : Frac) : Frac := if fle a b then b else a

/-- Python `min(a, b)` on two floats. -/
def fmin (a b : Frac) : Frac := if fle a b then a else b

/-- Python `str(x)` for a float value, rendered exactly. -/
def frac_to_str (q : Frac) : String :=
  if q.den = 1 then toString q.num else toString q.num ++ "/" ++ toString q.den

/-- Python `str.lower()` (character-wise ASCII lowering suffices for the
strings the macro lowers, namely `str(True)`/`str(False)` and digit
strings). -/
def py_lower (s : String) : String := String.mk (s.data.map Char.toLower)

/-- A scalar YAML value as it reaches the macro: a Python bool, int or
string.  (Float scalars are omitted; no claim involves them, and the
integer scalars 0/1 are the delicate case for the boolean test below.) -/
inductive Scalar where
  | bool : Bool → Scalar
  | int : Int → Scalar
  | str : String → Scalar
deriving DecidableEq

/-- A YAML value: a scalar or a list of scalars (the macro only ever
joins one level of list, via `str(x)` per element). -/
inductive Value where
  | scalar : Scalar → Value
  | vlist : List Scalar → Value
deriving DecidableEq

/-- Python `str(x)` for a scalar. -/
def py_str : Scalar → String
  | .bool true => "True"
  | .bool false => "False"
  | .int n => toString n
  | .str s => s

/-- Python `value in (True, False)`.  Python equality identifies `True`
with `1` and `False` with `0`, so the integers 0 and 1 (and the bools)
pass this membership test; strings and lists never do. -/
def py_in_true_false : Scalar → Bool
  | .bool _ => true
  | .int n => n == 0 || n == 1
  | .str _ => false

def join_space (l : List String) : String := String.intercalate " " l

/-- Embedding of `convert_value_to_mujoco_xml` (source lines 403-411):
values equal to True/False are stringified and lowercased, lists and
tuples are space-joined element-wise `str`, everything else is `str`. -/
def convert_value_to_mujoco_xml : Value → String
  | .scalar s => if py_in_true_false s then py_lower (py_str s) else py_str s
  | .vlist xs => join_space (xs.map py_str)

/-- Python dict assignment `d[k] = v` on an association list: replace the
first occurrence of the key in place, else append. -/
def dict_insert (l : List (String × String)) (k v : String) : List (String × String) :=
  match l with
  | [] => [(k, v)]
  | (k2, v2) :: rest => if k2 = k then (k, v) :: rest else (k2, v2) :: dict_insert rest k v

/-- Lookup in an association list of strings (attribute maps). -/
def dict_lookup (l : List (String × String)) (k : String) : Option String :=
  match l with
  | [] => none
  | (k2, v) :: rest => if k2 = k then some v else dict_lookup rest k

/-- Lookup in an association list with string keys and arbitrary values
(Python dict access `d[k]`, `none` modelling KeyError). -/
def alist_get {α : Type} (l : List (String × α)) (k : String) : Option α :=
  match l with
  | [] => none
  | (k2, v) :: rest => if k2 = k then some v else alist_get rest k

/-- A 3-vector (`FreeCAD.Vector`). -/
structure Vec3 where
  x : Frac
  y : Frac
  z : Frac
deriving DecidableEq

def vzero : Vec3 := ⟨fint 0, fint 0, fint 0⟩

def vadd (a b : Vec3) : Vec3 := ⟨fadd a.x b.x, fadd a.y b.y, fadd a.z b.z⟩

def vsub (a b : Vec3) : Vec3 := ⟨fsub a.x b.x, fsub a.y b.y, fsub a.z b.z⟩

def vcross (a b : Vec3) : Vec3 :=
  ⟨fsub (fmul a.y b.z) (fmul a.z b.y),
   fsub (fmul a.z b.x) (fmul a.x b.z),
   fsub (fmul a.x b.y) (fmul a.y b.x)⟩

def vsmul (c : Frac) (v : Vec3) : Vec3 := ⟨fmul c v.x, fmul c v.y, fmul c v.z⟩

/-- Embedding of `vector_to_str` (source lines 513-517) at 3-vectors:
`' '.join([str(x) for x in vector])`. -/
def vector_to_str (v : Vec3) : String :=
  join_space [frac_to_str v.x, frac_to_str v.y, frac_to_str v.z]

/-- A quaternion as FreeCAD exposes it: `Rotation.Q == (x, y, z, w)`,
vector part first, scalar last. -/
structure Quat where
  x : Frac
  y : Frac
  z : Frac
  w : Frac
deriving DecidableEq

/-- The 4-tuple view of a quaternion, in FreeCAD component order
`(x, y, z, w)` (this is what indexing `q[0] .. q[3]` sees). -/
def Quat.toTuple (q : Quat) : Frac × Frac × Frac × Frac := (q.x, q.y, q.z, q.w)

/-- Embedding of `convert_quat_to_mujoco` (source lines 520-524):
`(q[3], q[0], q[1], q[2])`, i.e. `(x, y, z, w) ↦ (w, x, y, z)`. -/
def convert_quat_to_mujoco (q : Frac × Frac × Frac × Frac) : Frac × Frac × Frac × Frac :=
  (q.2.2.2, q.1, q.2.1, q.2.2.1)

/-- The true inverse permutation of `convert_quat_to_mujoco`:
`(w, x, y, z) ↦ (x, y, z, w)` (scalar-first back to vector-first).  Not
part of the source; used to state the bijection claim. -/
def reindex_inverse (q : Frac × Frac × Frac × Frac) : Frac × Frac × Frac × Frac :=
  (q.2.1, q.2.2.1, q.2.2.2, q.1)

/-- Embedding of `vector_to_str` at 4-tuples (the macro passes the
converted quaternion, a 4-tuple, through the same join). -/
def quat_to_str (q : Frac × Frac × Frac × Frac) : String :=
  join_space [frac_to_str q.1, frac_to_str q.2.1, frac_to_str q.2.2.1, frac_to_str q.2.2.2]

/-- A FreeCAD `Rotation`, carried by its quaternion. -/
structure Rotation where
  q : Quat
deriving DecidableEq

/-- `Rotation.multVec`: rotate a vector by the quaternion, via the
standard `v + w·t + u × t` form with `t = 2 (u × v)` and `u` the vector
part. -/
def Rotation.multVec (r : Rotation) (v : Vec3) : Vec3 :=
  let u : Vec3 := ⟨r.q.x, r.q.y, r.q.z⟩
  let t : Vec3 := vsmul (fint 2) (vcross u v)
  vadd (vadd v (vsmul r.q.w t)) (vcross u t)

/-- A FreeCAD `Placement`: translation (`Base`) plus `Rotation`. -/
structure Placement where
  base : Vec3
  rot : Rotation
deriving DecidableEq

/-- Axis-aligned bounding box of a part shape (`Shape.BoundBox`). -/
structure Bbox where
  xmin : Frac
  xmax : Frac
  ymin : Frac
  ymax : Frac
  zmin : Frac
  zmax : Frac
deriving DecidableEq

/-- An RGBA color, channels in [0, 1] (`ShapeColor` 4-tuple). -/
def Color : Type := Frac × Frac × Frac × Frac

instance : DecidableEq Color := by
  unfold Color
  infer_instance

/-- What `get_part_info` (source lines 76-85) plus the part object itself
supply for one part of the assembly: its source file name, its placement
in the assembly, its GUI shape color and its bounding box. -/
structure PartData where
  srcFile : String
  placement : Placement
  shapeColor : Color
  bbox : Bbox
deriving DecidableEq

/-- The `part_info` mapping from part label to part data (a Python dict;
keys are unique). -/
def PartCatalog : Type := List (String × PartData)

instance : DecidableEq PartCatalog := by
  unfold PartCatalog
  infer_instance

/-- Snapshot of the documents `FreeCAD.openDocument`/`App.getDocument`
can open: per source file, the labelled objects and their placements.
`doc.findObjects(Label=l)[0]` is a lookup here, `none` modelling the
IndexError/exception when no such object (or no such file) exists. -/
structure DocStore where
  docs : List (String × List (String × Placement))
deriving DecidableEq

/-- FreeCAD object labels are strings: `findObjects(Label=v)` can only
match when the YAML value `v` is a string (a list or int label matches
no document object and the subsequent `[0]` raises). -/
def value_label : Value → Option String
  | .scalar (.str s) => some s
  | _ => none

def lookup_doc_obj (ds : DocStore) (file lbl : String) : Option Placement :=
  (alist_get ds.docs file).bind fun objs => alist_get objs lbl

/-- Embedding of `get_placement_base_vector` (source lines 414-426): open
the part file, find the object with the given label, return its
`Placement.Base`. -/
def get_placement_base_vector (ds : DocStore) (file : String) (lbl : Value) : Option Vec3 :=
  (value_label lbl).bind fun l =>
  (lookup_doc_obj ds file l).map fun p => p.base

/-- Embedding of `get_placement_rotation` (source lines 429-442). -/
def get_placement_rotation (ds : DocStore) (file : String) (lbl : Value) : Option Rotation :=
  (value_label lbl).bind fun l =>
  (lookup_doc_obj ds file l).map fun p => p.rot

/-- Embedding of `get_datum_line_vector` (source lines 445-452): the
datum object's own +Z direction `(0,0,1)` rotated by the datum's
placement rotation. -/
def get_datum_line_vector (ds : DocStore) (file : String) (lbl : Value) : Option Vec3 :=
  (get_placement_rotation ds file lbl).map fun r => r.multVec ⟨fint 0, fint 0, fint 1⟩

/-- Characters strictly before the last `.` of a character list, or
`none` when no dot occurs. -/
def before_last_dot : List Char → Option (List Char)
  | [] => none
  | c :: rest =>
    match before_last_dot rest with
    | some tail => some (c :: tail)
    | none => if c = '.' then some [] else none

/-- Embedding of `get_base_name` (source lines 539-544):
`os.path.splitext` keeps everything before the last dot (the leading-dot
special case of `splitext` does not arise for the part file names in
play). -/
def get_base_name (s : String) : String :=
  match before_last_dot s.data with
  | none => s
  | some pre => String.mk pre

/-- Embedding of `invert_color_alpha` (source lines 504-510): replace the
alpha channel by `1 - alpha`. -/
def invert_color_alpha (c : Color) : Color :=
  (c.1, c.2.1, c.2.2.1, fsub (fint 1) c.2.2.2)

/-- Embedding of `get_part_color` (source lines 495-501): the GUI shape
color with the alpha channel inverted. -/
def get_part_color (p : PartData) : Color := invert_color_alpha p.shapeColor

/-- First-occurrence deduplication of a list of colors.  The source
builds a Python `set` comprehension and converts it back to a list
(`get_color_list`, lines 487-492); a Python set iterates in an
unspecified hash/insertion-dependent order, NOT in a sorted order of the
color values.  The model fixes that unspecified order as first-insertion
order, which preserves the essential property: the resulting order is a
function of the part iteration order, not a canonical sort. -/
def dedup_aux (seen : List Color) : List Color → List Color
  | [] => []
  | c :: rest => if c ∈ seen then dedup_aux seen rest else c :: dedup_aux (c :: seen) rest

def dedup_first (l : List Color) : List Color := dedup_aux [] l

/-- Embedding of `get_color_list` (source lines 487-492): the distinct
part colors, in set-iteration order (modelled as first-insertion order).
-/
def get_color_list (parts : PartCatalog) : List Color :=
  dedup_first (parts.map fun pr => get_part_color pr.2)

/-- Python `list.index` (`color_list.index(color)`). -/
def idx_of (c : Color) : List Color → Nat
  | [] => 0
  | x :: rest => if x = c then 0 else idx_of c rest + 1

/-- Embedding of `get_label_to_color_name` (source lines 473-484) as a
lookup function: a part label maps to `color_<index of its color in
get_color_list>`; labels outside `part_info` have no entry. -/
def label_to_color_name (parts : PartCatalog) (lbl : String) : Option String :=
  (alist_get parts lbl).map fun p =>
    "color_" ++ toString (idx_of (get_part_color p) (get_color_list parts))

/-!
XML element tree (`xml.etree.ElementTree`): a tag, an attribute map
and a list of child elements.  `XmlForest` is the child list, mutually
inductive so that functions over the tree can recurse structurally.
-/
mutual
inductive XmlNode where
  | elem (tag : String) (attrib : List (String × String)) (children : XmlForest)
inductive XmlForest where
  | nil : XmlForest
  | cons (x : XmlNode) (rest : XmlForest) : XmlForest
end

/-- Build an `XmlForest` from a list literal. -/
def xf : List XmlNode → XmlForest
  | [] => .nil
  | x :: rest => .cons x (xf rest)

def XmlForest.append : XmlForest → XmlForest → XmlForest
  | .nil, ys => ys
  | .cons x rest, ys => .cons x (XmlForest.append rest ys)

def tag_of : XmlNode → String
  | .elem t _ _ => t

def attrib_of : XmlNode → List (String × String)
  | .elem _ a _ => a

def children_of : XmlNode → XmlForest
  | .elem _ _ c => c

/-- Position the floor geom is given: `FLOOR_ATTRIB` (source lines
44-49). -/
def FLOOR_ATTRIB : List (String × String) :=
  [("name", "floor"), ("type", "plane"), ("material", "grid"), ("condim", "3")]

/-- `LIGHT_ATTRIB` (source lines 69-74). -/
def LIGHT_ATTRIB : List (String × String) :=
  [("name", "spotlight"), ("mode", "targetbodycom"),
   ("diffuse", "0.8 0.8 0.8"), ("specular", "0.2 0.2 0.2")]

/-- `OPTION_ATTRIB` defaults (source lines 39-42). -/
def OPTION_ATTRIB : List (String × String) :=
  [("gravity", "0 0 -1"), ("timestep", "0.005")]

/-- `GRID_TEXTURE_ATTRIB` (source lines 51-59). -/
def GRID_TEXTURE_ATTRIB : List (String × String) :=
  [("name", "grid"), ("type", "2d"), ("builtin", "checker"),
   ("width", "512"), ("height", "512"),
   ("rgb1", "0.1 0.2 0.3"), ("rgb2", "0.2 0.3 0.4")]

/-- `GRID_MATERIAL_ATTRIB` (source lines 61-67). -/
def GRID_MATERIAL_ATTRIB : List (String × String) :=
  [("name", "grid"), ("texture", "grid"), ("texrepeat", "10 10"),
   ("texuniform", "false"), ("reflectance", ".2")]

/-- Round a nonnegative integer-scaled value to 2 decimal digits: Python
`f'{val:1.2f}'` for the color channels (which lie in [0, 1]; ties are
modelled as round-half-up on the exact rational, a convention choice the
binary-float formatting of Python makes irrelevant for the claims). -/
def format_2f (q : Frac) : String :=
  let n : Int := (2 * q.num * 100 + q.den) / (2 * q.den)
  let ip : Int := n / 100
  let fp : Int := n % 100
  toString ip ++ "." ++ (if fp < 10 then "0" else "") ++ toString fp

def color_to_str (c : Color) : String :=
  join_space [format_2f c.1, format_2f c.2.1, format_2f c.2.2.1, format_2f c.2.2.2]

def MESH_FILE_DIR : String := "mesh_files"

/-- Embedding of `get_mesh_file` (source lines 115-117). -/
def get_mesh_file (base : String) : String := base ++ ".stl"

/-- Embedding of `add_assets` (source lines 189-211): one mesh element
per part, one material element per distinct color named `color_<i>` in
`get_color_list` order, then the fixed grid texture/material pair. -/
def add_assets (parts : PartCatalog) : XmlNode :=
  let meshes := parts.map fun pr =>
    XmlNode.elem "mesh"
      [("file", "./" ++ MESH_FILE_DIR ++ "/" ++ get_mesh_file (get_base_name pr.2.srcFile))] .nil
  let colors := (get_color_list parts).enum.map fun ci =>
    XmlNode.elem "material"
      [("name", "color_" ++ toString ci.1), ("rgba", color_to_str ci.2)] .nil
  XmlNode.elem "asset" []
    (xf (meshes ++ colors ++
      [XmlNode.elem "texture" GRID_TEXTURE_ATTRIB .nil,
       XmlNode.elem "material" GRID_MATERIAL_ATTRIB .nil]))

/-- Inline value encoding of `add_option` (source lines 179-186): lists
are space-joined, everything else - booleans included - is plain `str`,
with NO lowercasing (this is not `convert_value_to_mujoco_xml`). -/
def option_value_str : Value → String
  | .vlist xs => join_space (xs.map py_str)
  | .scalar s => py_str s

/-- The option attribute map: defaults updated with the user entries. -/
def option_attrib (opts : List (String × Value)) : List (String × String) :=
  opts.foldl (fun acc kv => dict_insert acc kv.1 (option_value_str kv.2)) OPTION_ATTRIB

/-- Embedding of `add_option` (source lines 179-186); `mujoco_info` with
no `option` key raises KeyError (`none`). -/
def add_option : Option (List (String × Value)) → Option XmlNode
  | none => none
  | some opts => some (XmlNode.elem "option" (option_attrib opts) .nil)

/-- A joint entry of the YAML body tree: `{type, position?, parameters?}`.
`position` names a pivot/anchor object (any YAML value; only the root's
is ever read), `parameters` is the joint parameter map. -/
structure Joint where
  type : String
  position : Option Value
  parameters : Option (List (String × Value))
deriving DecidableEq

/-!
A node of `mujoco_info['worldbody']['body_tree']`: `{label, joint?,
children?}` (an absent `children` key and an empty list are both modelled
by the empty child list).  Mutually inductive with its child list so the
tree walk recurses structurally.
-/
mutual
inductive BodyNode where
  | mk (label : String) (joint : Option Joint) (children : BodyNodeList)
inductive BodyNodeList where
  | nil : BodyNodeList
  | cons (b : BodyNode) (rest : BodyNodeList) : BodyNodeList
end

/-- Build a `BodyNodeList` from a list literal. -/
def bl : List BodyNode → BodyNodeList
  | [] => .nil
  | b :: rest => .cons b (bl rest)

def BodyNode.label : BodyNode → String
  | .mk l _ _ => l

def BodyNode.joint : BodyNode → Option Joint
  | .mk _ j _ => j

def BodyNode.children : BodyNode → BodyNodeList
  | .mk _ _ c => c

/-- The compile context the inner closure `add_body_to_tree` captures
from `add_bodies`: `part_info`, the document snapshot (standing in for
`file_info` plus the openable documents) and `root_base_vector`. -/
structure Ctx where
  parts : PartCatalog
  docs : DocStore
  rootBase : Vec3

/-- Parent data extracted at the head of `add_body_to_tree` (source lines
269-281): for a real parent, its source file and placement rotation; for
the root call (`parent_mujoco_info == {}`) there is no parent and the
parent rotation/source file are `None`. -/
def parent_data (ctx : Ctx) : Option String → Option (Option (String × Rotation))
  | none => some none
  | some plabel =>
      (alist_get ctx.parts plabel).map fun p => some (p.srcFile, p.placement.rot)

/-- The joint parameter loop (source lines 338-345).  Each entry is first
written through `convert_value_to_mujoco_xml`; the key `axis` is then
resolved as a datum label in the PARENT source file and rotated by the
PARENT rotation (failing - `none` - when there is no parent, when the
value is not a resolvable label, or when the datum is missing); any other
key is simply written again. -/
def process_joint_params (ctx : Ctx) (pInfo : Option (String × Rotation)) :
    List (String × String) → List (String × Value) → Option (List (String × String))
  | attrib, [] => some attrib
  | attrib, (k, v) :: rest =>
    let attrib1 := dict_insert attrib k (convert_value_to_mujoco_xml v)
    if k = "axis" then
      pInfo.bind fun pd =>
      (get_datum_line_vector ctx.docs pd.1 v).bind fun av =>
      process_joint_params ctx pInfo
        (dict_insert attrib1 "axis" (vector_to_str (pd.2.multVec av))) rest
    else
      process_joint_params ctx pInfo
        (dict_insert attrib1 k (convert_value_to_mujoco_xml v)) rest

/-- The joint emission block of `add_body_to_tree` (source lines
320-346): no `joint` key emits nothing; type `freejoint` emits a bare
`freejoint` element carrying only the name (parameters, pivots and axes
are ignored); any other type emits a `joint` element whose attributes
start from name/type/pos (pos being the body position string) and are
then extended by the parameter loop. -/
def joint_elems (ctx : Ctx) (pInfo : Option (String × Rotation)) (posStr label : String) :
    Option Joint → Option XmlForest
  | none => some .nil
  | some j =>
    if j.type = "freejoint" then
      some (xf [XmlNode.elem "freejoint" [("name", label ++ "_joint")] .nil])
    else
      (match j.parameters with
       | none => some [("name", label ++ "_joint"), ("type", j.type), ("pos", posStr)]
       | some ps =>
           process_joint_params ctx pInfo
             [("name", label ++ "_joint"), ("type", j.type), ("pos", posStr)] ps
      ).bind fun attrib => some (xf [XmlNode.elem "joint" attrib .nil])

/-!
Embedding of the recursive inner function `add_body_to_tree` (source
lines 263-351) and of its recursion over the child list (line 350's
`for` loop).  The `parent` argument carries the parent node's label
(`parent_mujoco_info['label']`, the only parent field the source reads),
`none` for the root call.
-/
mutual
def add_body_to_tree (ctx : Ctx) (parent : Option String) : BodyNode → Option XmlNode
  | .mk label joint children =>
    (parent_data ctx parent).bind fun pInfo =>
    (alist_get ctx.parts label).bind fun part =>
    let posStr := vector_to_str (vsub part.placement.base ctx.rootBase)
    let quatStr := quat_to_str (convert_quat_to_mujoco part.placement.rot.q.toTuple)
    (label_to_color_name ctx.parts label).bind fun colorName =>
    (joint_elems ctx pInfo posStr label joint).bind fun jElems =>
    (add_body_list ctx label children).bind fun childElems =>
    some (XmlNode.elem "body" [("name", label), ("pos", posStr), ("quat", quatStr)]
      (.cons (XmlNode.elem "geom"
          [("name", label ++ "_mesh"), ("type", "mesh"),
           ("mesh", get_base_name part.srcFile), ("material", colorName),
           ("pos", posStr), ("quat", quatStr)] .nil)
        (jElems.append childElems)))
def add_body_list (ctx : Ctx) (parentLabel : String) : BodyNodeList → Option XmlForest
  | .nil => some .nil
  | .cons b rest =>
    (add_body_to_tree ctx (some parentLabel) b).bind fun x =>
    (add_body_list ctx parentLabel rest).bind fun xs =>
    some (.cons x xs)
end

/-- Embedding of the bounding-extent computation `get_xyz_extent`
(source lines 455-470): min and max of all parts' bbox bounds per axis
(Python `min`/`max` over the collected value lists; an empty assembly
raises). -/
def get_xyz_extent (parts : PartCatalog) :
    Option ((Frac × Frac) × (Frac × Frac) × (Frac × Frac)) :=
  match parts.map (fun pr => pr.2.bbox) with
  | [] => none
  | b :: rest =>
    let fold2 := fun (f : Bbox → Frac) (g : Bbox → Frac) (op : Frac → Frac → Frac) =>
      rest.foldl (fun acc c => op (op acc (f c)) (g c)) (op (f b) (g b))
    some ((fold2 Bbox.xmin Bbox.xmax fmin, fold2 Bbox.xmin Bbox.xmax fmax),
          (fold2 Bbox.ymin Bbox.ymax fmin, fold2 Bbox.ymin Bbox.ymax fmax),
          (fold2 Bbox.zmin Bbox.zmax fmin, fold2 Bbox.zmin Bbox.zmax fmax))

/-- The floor geometry (source lines 231-235): `FLOOR_ATTRIB` plus a size
of 10x the largest upper extent (the `0.05` thickness is literal text in
the f-string). -/
def floor_elem (xmax ymax zmax : Frac) : XmlNode :=
  let d := fmul (fint 10) (fmax xmax (fmax ymax zmax))
  XmlNode.elem "geom"
    (dict_insert FLOOR_ATTRIB "size" (frac_to_str d ++ " " ++ frac_to_str d ++ " 0.05")) .nil

/-- The light (source lines 237-246): `LIGHT_ATTRIB` plus a position at
1.5x the upper extents, a cutoff of 2x the largest upper extent, and the
root body as target. -/
def light_elem (xmax ymax zmax : Frac) (target : String) : XmlNode :=
  let px := fmul ⟨3, 2⟩ xmax
  let py := fmul ⟨3, 2⟩ ymax
  let pz := fmul ⟨3, 2⟩ zmax
  let cutoff := fmul (fint 2) (fmax xmax (fmax ymax zmax))
  XmlNode.elem "light"
    (dict_insert
      (dict_insert
        (dict_insert LIGHT_ATTRIB "pos"
          (frac_to_str px ++ " " ++ frac_to_str py ++ " " ++ frac_to_str pz))
        "cutoff" (frac_to_str cutoff))
      "target" target) .nil

/-- The root-anchor resolution of `add_bodies` (source lines 248-258):
look up the root part, then, if the root joint names a pivot position,
resolve it in the root part's source document; a missing `joint` or
`position` key (KeyError) yields the zero vector. -/
def resolve_root_anchor (parts : PartCatalog) (docs : DocStore) (root : BodyNode) :
    Option Vec3 :=
  (alist_get parts root.label).bind fun rootPart =>
  match root.joint.bind Joint.position with
  | none => some vzero
  | some point => get_placement_base_vector docs rootPart.srcFile point

/-- Embedding of `add_bodies` (source lines 214-354): the worldbody
element containing the floor geom, the light and the recursively built
body tree, with every part position shifted by the root anchor resolved
once up front. -/
def add_bodies (parts : PartCatalog) (docs : DocStore) (root : BodyNode) : Option XmlNode :=
  (get_xyz_extent parts).bind fun ext =>
  (resolve_root_anchor parts docs root).bind fun rootBase =>
  (add_body_to_tree ⟨parts, docs, rootBase⟩ none root).bind fun rootElem =>
  some (XmlNode.elem "worldbody" []
    (xf [floor_elem ext.1.2 ext.2.1.2 ext.2.2.2,
         light_elem ext.1.2 ext.2.1.2 ext.2.2.2 root.label,
         rootElem]))

/-- One entry of `mujoco_info['equality']`: a type tag (which becomes the
element tag) and a parameter map. -/
structure EqualityDecl where
  type : String
  parameters : Option (List (String × Value))
deriving DecidableEq

/-- The equality parameter loop (source lines 369-382).  The key
`anchor` looks up `parameters['body2']`, resolves the anchor label in
body2's source document and writes `body2.rotation · anchor + body2.base`
as the attribute; every other key is written through
`convert_value_to_mujoco_xml`.  `allParams` is the full parameter dict
the loop re-reads `body2` from. -/
def process_equality_params (parts : PartCatalog) (docs : DocStore)
    (allParams : List (String × Value)) :
    List (String × String) → List (String × Value) → Option (List (String × String))
  | attrib, [] => some attrib
  | attrib, (k, v) :: rest =>
    if k = "anchor" then
      (alist_get allParams "body2").bind fun b2v =>
      (value_label b2v).bind fun b2 =>
      (alist_get parts b2).bind fun p2 =>
      (get_placement_base_vector docs p2.srcFile v).bind fun a =>
      process_equality_params parts docs allParams
        (dict_insert attrib k
          (vector_to_str (vadd (p2.placement.rot.multVec a) p2.placement.base))) rest
    else
      process_equality_params parts docs allParams
        (dict_insert attrib k (convert_value_to_mujoco_xml v)) rest

/-- Emission of one equality declaration (body of the loop in
`add_equalities`, source lines 361-383): an element tagged by the
declaration's type, with the processed parameter map as attributes (an
absent parameter map gives an empty attribute map). -/
def emit_equality (parts : PartCatalog) (docs : DocStore) (e : EqualityDecl) :
    Option XmlNode :=
  (match e.parameters with
   | none => some []
   | some ps => process_equality_params parts docs ps [] ps
  ).bind fun attrib => some (XmlNode.elem e.type attrib .nil)

def emit_equality_list (parts : PartCatalog) (docs : DocStore) :
    List EqualityDecl → Option XmlForest
  | [] => some .nil
  | e :: rest =>
    (emit_equality parts docs e).bind fun x =>
    (emit_equality_list parts docs rest).bind fun xs =>
    some (.cons x xs)

/-- Embedding of `add_equalities` (source lines 357-383): no `equality`
key in `mujoco_info` emits no element at all (inner `none`); otherwise an
`equality` element containing one child per declaration. -/
def add_equalities (parts : PartCatalog) (docs : DocStore) :
    Option (List EqualityDecl) → Option (Option XmlNode)
  | none => some none
  | some eqs =>
    (emit_equality_list parts docs eqs).map fun elems =>
      some (XmlNode.elem "equality" [] elems)

/-- One entry of `mujoco_info['actuator']`. -/
structure ActuatorDecl where
  type : String
  parameters : Option (List (String × Value))
deriving DecidableEq

/-- The actuator parameter loop (source lines 398-399): every entry goes
through `convert_value_to_mujoco_xml`, no geometric resolution. -/
def actuator_attrib (ps : List (String × Value)) : List (String × String) :=
  ps.foldl (fun acc kv => dict_insert acc kv.1 (convert_value_to_mujoco_xml kv.2)) []

/-- Emission of one actuator declaration (loop body of `add_actuators`,
source lines 390-400). -/
def emit_actuator (a : ActuatorDecl) : XmlNode :=
  XmlNode.elem a.type (actuator_attrib (a.parameters.getD [])) .nil

/-- Embedding of `add_actuators` (source lines 386-400): no `actuator`
key emits no element at all; otherwise an `actuator` element with one
child per declaration. -/
def add_actuators : Option (List ActuatorDecl) → Option XmlNode
  | none => none
  | some as2 => some (XmlNode.elem "actuator" [] (xf (as2.map emit_actuator)))

/-!
Tabular topology extraction.  The tabular front-end of the
TopologyExtractor (spec section 4.1, "tabular variant") belongs to this
repository's tool lineage but is not present under `src/`; the following
definitions are therefore modelled from the spec, not translated from
source code.
-/

/-- Modelled from the spec: the flat per-label record `{parent:
field-map, children: ordered list of field-maps}` the tabular variant
produces (spec section 4.1; the wiring of these records into a rooted
tree is left open by the spec). -/
structure LabelRecord where
  parent : List (String × String)
  children : List (List (String × String))
deriving DecidableEq

/-- Modelled from the spec: the row ranges of a column's entries.  An
entry at row `r` followed by an entry at row `r2` owns rows
`[r+1, r2-1]`; the last entry owns `[r+1, maxRow]`.  Used both for
column-A entries (bounded by the grid's max row) and for column-B
entries inside an A-range (bounded by the end of that range). -/
def block_ranges : List (Nat × String) → Nat → List (String × Nat × Nat)
  | [], _ => []
  | [(r, s)], maxRow => [(s, r + 1, maxRow)]
  | (r, s) :: (r2, s2) :: rest, maxRow =>
      (s, r + 1, r2 - 1) :: block_ranges ((r2, s2) :: rest) maxRow

/-- Lookup by row number in a column's (row, content) list. -/
def nat_alist_get (l : List (Nat × String)) (r : Nat) : Option String :=
  match l with
  | [] => none
  | (r2, v) :: rest => if r2 = r then some v else nat_alist_get rest r

/-- Modelled from the spec: pair each column-C entry in `[lo, hi]` with
the same-row column-D value; a C entry with no matching D entry is a
MalformedTopology error (`none`). -/
def cd_pairs (colC colD : List (Nat × String)) (lo hi : Nat) :
    Option (List (String × String)) :=
  (colC.filter fun rc => lo ≤ rc.1 && rc.1 ≤ hi).mapM fun rc =>
    (nat_alist_get colD rc.1).map fun dval => (rc.2, dval)

/-- Modelled from the spec: process the column-B blocks of one label's
range.  A `parent` tag writes its C/D pairs into the single parent map;
every `child` tag starts a fresh child field-map (the running child-block
counter increments on each `child` occurrence, consecutive ones
included) and writes its pairs there; unrecognized tags record nothing
(the permissive policy of spec section 4.1 step 4). -/
def process_b_blocks (colC colD : List (Nat × String)) :
    List (String × Nat × Nat) → LabelRecord → Option LabelRecord
  | [], acc => some acc
  | (tag, lo, hi) :: rest, acc =>
    if tag = "parent" then
      (cd_pairs colC colD lo hi).bind fun pairs =>
      process_b_blocks colC colD rest
        { acc with parent := pairs.foldl (fun m kv => dict_insert m kv.1 kv.2) acc.parent }
    else if tag = "child" then
      (cd_pairs colC colD lo hi).bind fun pairs =>
      process_b_blocks colC colD rest
        { acc with children :=
            acc.children ++ [pairs.foldl (fun m kv => dict_insert m kv.1 kv.2) []] }
    else
      process_b_blocks colC colD rest acc

/-- Modelled from the spec: extract one label's record from its row
range `[lo, hi]`: the column-B entries inside the range are cut into
sub-ranges (bounded by the end of the label's range) and processed in
row order. -/
def extract_label_entry (colB colC colD : List (Nat × String)) (lo hi : Nat) :
    Option LabelRecord :=
  process_b_blocks colC colD
    (block_ranges (colB.filter fun rt => lo ≤ rt.1 && rt.1 ≤ hi) hi)
    { parent := [], children := [] }

/-- Modelled from the spec: the tabular extraction.  Columns are the
non-empty cells per column in ascending row order; the output maps each
column-A label to its record. -/
def extract_topology (colA colB colC colD : List (Nat × String)) (maxRow : Nat) :
    Option (List (String × LabelRecord)) :=
  (block_ranges colA maxRow).mapM fun e =>
    (extract_label_entry colB colC colD e.2.1 e.2.2).map fun r => (e.1, r)

/-- The name-labelled shape of the body elements of a scene: one node
per `body` element carrying its `name` attribute, children in document
order.  Comparing this against `label_tree` of the topology expresses
"same number of bodies, same names, same nesting". -/
inductive LabelTree where
  | node (name : Option String) (children : List LabelTree)

mutual
def body_forest : XmlNode → List LabelTree
  | .elem tag attrib children =>
    if tag = "body" then [.node (dict_lookup attrib "name") (forest_of_children children)]
    else forest_of_children children
def forest_of_children : XmlForest → List LabelTree
  | .nil => []
  | .cons x rest => body_forest x ++ forest_of_children rest
end

mutual
def body_count : XmlNode → Nat
  | .elem tag _ children => (if tag = "body" then 1 else 0) + body_count_forest children
def body_count_forest : XmlForest → Nat
  | .nil => 0
  | .cons x rest => body_count x + body_count_forest rest
end

mutual
def collect_body_attribs : XmlNode → List (List (String × String))
  | .elem tag attrib children =>
    (if tag = "body" then [attrib] else []) ++ collect_attribs_forest children
def collect_attribs_forest : XmlForest → List (List (String × String))
  | .nil => []
  | .cons x rest => collect_body_attribs x ++ collect_attribs_forest rest
end

mutual
def label_tree : BodyNode → LabelTree
  | .mk label _ children => .node (some label) (label_forest children)
def label_forest : BodyNodeList → List LabelTree
  | .nil => []
  | .cons b rest => label_tree b :: label_forest rest
end

mutual
def node_count : BodyNode → Nat
  | .mk _ _ children => 1 + node_count_list children
def node_count_list : BodyNodeList → Nat
  | .nil => 0
  | .cons b rest => node_count b + node_count_list rest
end

theorem forest_of_children_append (a b : XmlForest) :
    forest_of_children (XmlForest.append a b) = forest_of_children a ++ forest_of_children b := by
  match a with
  | .nil => simp [XmlForest.append, forest_of_children]
  | .cons x rest =>
      simp [XmlForest.append, forest_of_children, forest_of_children_append rest b]

theorem body_count_forest_append (a b : XmlForest) :
    body_count_forest (XmlForest.append a b) = body_count_forest a + body_count_forest b := by
  match a with
  | .nil => simp [XmlForest.append, body_count_forest]
  | .cons x rest =>
      simp [XmlForest.append, body_count_forest, body_count_forest_append rest b]
      omega

theorem collect_attribs_forest_append (a b : XmlForest) :
    collect_attribs_forest (XmlForest.append a b) =
      collect_attribs_forest a ++ collect_attribs_forest b := by
  match a with
  | .nil => simp [XmlForest.append, collect_attribs_forest]
  | .cons x rest =>
      simp [XmlForest.append, collect_attribs_forest, collect_attribs_forest_append rest b]

/-- Joint elements contain no `body` elements: whatever
`joint_elems` emits contributes nothing to the body forest, the body
count or the collected body attribute maps. -/
theorem joint_elems_analysis (ctx : Ctx) (pInfo : Option (String × Rotation))
    (posStr label : String) (j : Option Joint) (jE : XmlForest)
    (h : joint_elems ctx pInfo posStr label j = some jE) :
    forest_of_children jE = [] ∧ body_count_forest jE = 0 ∧
      collect_attribs_forest jE = [] := by
  cases j with
  | none =>
      simp [joint_elems] at h
      subst h
      simp [forest_of_children, body_count_forest, collect_attribs_forest]
  | some jj =>
      by_cases hf : jj.type = "freejoint"
      · simp [joint_elems, hf] at h
        subst h
        simp [xf, forest_of_children, body_forest, body_count_forest, body_count,
          collect_attribs_forest, collect_body_attribs]
      · cases hps : (match jj.parameters with
            | none => some [("name", label ++ "_joint"), ("type", jj.type), ("pos", posStr)]
            | some ps =>
                process_joint_params ctx pInfo
                  [("name", label ++ "_joint"), ("type", jj.type), ("pos", posStr)] ps) with
        | none => simp [joint_elems, hf, hps] at h
        | some attrib =>
            simp [joint_elems, hf, hps] at h
            subst h
            simp [xf, forest_of_children, body_forest, body_count_forest, body_count,
              collect_attribs_forest, collect_body_attribs]

/-- The per-body property the recursion maintains: every collected body
attribute map names a catalog part and carries exactly that part's
root-shifted position. -/
def body_attribs_ok (ctx : Ctx) (attribs : List (List (String × String))) : Prop :=
  ∀ a ∈ attribs, ∃ lbl p, dict_lookup a "name" = some lbl ∧
    alist_get ctx.parts lbl = some p ∧
    dict_lookup a "pos" = some (vector_to_str (vsub p.placement.base ctx.rootBase))

mutual
theorem add_body_to_tree_spec (ctx : Ctx) (parent : Option String) (b : BodyNode)
    (x : XmlNode) (h : add_body_to_tree ctx parent b = some x) :
    body_forest x = [label_tree b] ∧ body_count x = node_count b ∧
      body_attribs_ok ctx (collect_body_attribs x) := by
  match b with
  | .mk label joint children =>
    rw [add_body_to_tree] at h
    cases hpd : parent_data ctx parent with
    | none => rw [hpd] at h; simp [Option.bind] at h
    | some pInfo =>
      rw [hpd] at h
      simp only [Option.bind] at h
      cases hpart : alist_get ctx.parts label with
      | none => rw [hpart] at h; simp [Option.bind] at h
      | some part =>
        rw [hpart] at h
        simp only [Option.bind, label_to_color_name, hpart, Option.map] at h
        cases hje : joint_elems ctx pInfo
            (vector_to_str (vsub part.placement.base ctx.rootBase)) label joint with
        | none => rw [hje] at h; simp [Option.bind] at h
        | some jE =>
          rw [hje] at h
          simp only [Option.bind] at h
          cases hcl : add_body_list ctx label children with
          | none => rw [hcl] at h; simp [Option.bind] at h
          | some childElems =>
            rw [hcl] at h
            simp only [Option.bind, Option.some.injEq] at h
            subst h
            have hJ := joint_elems_analysis ctx pInfo
              (vector_to_str (vsub part.placement.base ctx.rootBase)) label joint jE hje
            have hC := add_body_list_spec ctx label children childElems hcl
            refine ⟨?_, ?_, ?_⟩
            · simp [body_forest, forest_of_children, forest_of_children_append,
                hJ.1, hC.1, label_tree, dict_lookup]
            · simp [body_count, body_count_forest, body_count_forest_append,
                hJ.2.1, hC.2.1, node_count]
            · intro a ha
              simp [collect_body_attribs, collect_attribs_forest,
                collect_attribs_forest_append, hJ.2.2] at ha
              rcases ha with rfl | ha
              · exact ⟨label, part, by simp [dict_lookup], hpart, by simp [dict_lookup]⟩
              · exact hC.2.2 a ha
theorem add_body_list_spec (ctx : Ctx) (pl : String) (cs : BodyNodeList)
    (xs : XmlForest) (h : add_body_list ctx pl cs = some xs) :
    forest_of_children xs = label_forest cs ∧
      body_count_forest xs = node_count_list cs ∧
      body_attribs_ok ctx (collect_attribs_forest xs) := by
  match cs with
  | .nil =>
    rw [add_body_list] at h
    simp only [Option.some.injEq] at h
    subst h
    refine ⟨rfl, rfl, ?_⟩
    intro a ha
    simp [collect_attribs_forest] at ha
  | .cons c rest =>
    rw [add_body_list] at h
    cases hx : add_body_to_tree ctx (some pl) c with
    | none => rw [hx] at h; simp [Option.bind] at h
    | some x1 =>
      rw [hx] at h
      simp only [Option.bind] at h
      cases hrest : add_body_list ctx pl rest with
      | none => rw [hrest] at h; simp [Option.bind] at h
      | some xs1 =>
        rw [hrest] at h
        simp only [Option.bind, Option.some.injEq] at h
        subst h
        have h1 := add_body_to_tree_spec ctx (some pl) c x1 hx
        have h2 := add_body_list_spec ctx pl rest xs1 hrest
        refine ⟨?_, ?_, ?_⟩
        · simp [forest_of_children, h1.1, h2.1, label_forest]
        · simp [body_count_forest, h1.2.1, h2.2.1, node_count_list]
        · intro a ha
          simp only [collect_attribs_forest, List.mem_append] at ha
          rcases ha with ha | ha
          · exact h1.2.2 a ha
          · exact h2.2.2 a ha
end

/-- Claim C1: for every topology tree given to `add_bodies`, the emitted
scene contains exactly `node_count` (= N) body elements, each body's
`name` attribute equals its topology node's label, and the nesting of
the body elements (root first, children in declared order) has exactly
the shape of the topology tree.  Both facts are packaged by the
body-forest of the scene being the singleton label tree of the topology.
-/
theorem scene_bodies_match_topology (parts : PartCatalog) (docs : DocStore)
    (root : BodyNode) (w : XmlNode) (h : add_bodies parts docs root = some w) :
    body_forest w = [label_tree root] ∧ body_count w = node_count root := by
  rw [add_bodies] at h
  cases hext : get_xyz_extent parts with
  | none => rw [hext] at h; simp [Option.bind] at h
  | some ext =>
    rw [hext] at h
    simp only [Option.bind] at h
    cases hra : resolve_root_anchor parts docs root with
    | none => rw [hra] at h; simp [Option.bind] at h
    | some rootBase =>
      rw [hra] at h
      simp only [Option.bind] at h
      cases hrt : add_body_to_tree ⟨parts, docs, rootBase⟩ none root with
      | none => rw [hrt] at h; simp [Option.bind] at h
      | some rootElem =>
        rw [hrt] at h
        simp only [Option.bind, Option.some.injEq] at h
        subst h
        have hs := add_body_to_tree_spec ⟨parts, docs, rootBase⟩ none root rootElem hrt
        constructor
        · simp [body_forest, forest_of_children, xf, floor_elem, light_elem, hs.1]
        · simp [body_count, body_count_forest, xf, floor_elem, light_elem, hs.2.1]

/-- Claim C2: in a successfully compiled scene, every body element's
`pos` attribute is exactly `part.absolutePosition - rootAnchor` for the
part its `name` attribute names, where the root anchor is the value
`resolve_root_anchor` produced once up front (the resolved root pivot
reference, or the zero vector when the root joint names none).  The
anchor enters each body exactly once - the recursion carries the fixed
`rootBase` context, never an accumulated offset. -/
theorem scene_body_positions (parts : PartCatalog) (docs : DocStore)
    (root : BodyNode) (w : XmlNode) (rb : Vec3)
    (h : add_bodies parts docs root = some w)
    (hrb : resolve_root_anchor parts docs root = some rb) :
    ∀ a ∈ collect_body_attribs w, ∃ lbl p, dict_lookup a "name" = some lbl ∧
      alist_get parts lbl = some p ∧
      dict_lookup a "pos" = some (vector_to_str (vsub p.placement.base rb)) := by
  rw [add_bodies] at h
  cases hext : get_xyz_extent parts with
  | none => rw [hext] at h; simp [Option.bind] at h
  | some ext =>
    rw [hext] at h
    simp only [Option.bind] at h
    cases hra : resolve_root_anchor parts docs root with
    | none => rw [hra] at h; simp [Option.bind] at h
    | some rootBase =>
      rw [hra] at h
      simp only [Option.bind] at h
      cases hrt : add_body_to_tree ⟨parts, docs, rootBase⟩ none root with
      | none => rw [hrt] at h; simp [Option.bind] at h
      | some rootElem =>
        rw [hrt] at h
        simp only [Option.bind, Option.some.injEq] at h
        subst h
        have hrbeq : rootBase = rb := by
          rw [hra] at hrb
          exact (Option.some.inj hrb)
        subst hrbeq
        have hs := add_body_to_tree_spec ⟨parts, docs, rootBase⟩ none root rootElem hrt
        intro a ha
        simp [collect_body_attribs, collect_attribs_forest, xf,
          floor_elem, light_elem] at ha
        exact hs.2.2 a ha

/-- Identity rotation (quaternion (0,0,0,1)) used by the witness data. -/
def rot_id : Rotation := ⟨⟨fint 0, fint 0, fint 0, fint 1⟩⟩

/-- Witness part: a single-part catalog. -/
def part_base : PartData :=
  { srcFile := "base.FCStd"
    placement := { base := ⟨fint 1, fint 2, fint 3⟩, rot := rot_id }
    shapeColor := (fint 1, fint 0, fint 0, fint 1)
    bbox := ⟨fint 0, fint 2, fint 0, fint 2, fint 0, fint 2⟩ }

def parts1 : PartCatalog := [("base", part_base)]

def docs1 : DocStore := ⟨[]⟩

def root1 : BodyNode :=
  .mk "base" (some { type := "freejoint", position := none, parameters := none }) .nil

/-- The scene `add_bodies` emits for the witness data. -/
def W1 : XmlNode :=
  .elem "worldbody" []
    (xf [.elem "geom"
           [("name", "floor"), ("type", "plane"), ("material", "grid"),
            ("condim", "3"), ("size", "20 20 0.05")] .nil,
         .elem "light"
           [("name", "spotlight"), ("mode", "targetbodycom"),
            ("diffuse", "0.8 0.8 0.8"), ("specular", "0.2 0.2 0.2"),
            ("pos", "3 3 3"), ("cutoff", "4"), ("target", "base")] .nil,
         .elem "body" [("name", "base"), ("pos", "1 2 3"), ("quat", "1 0 0 0")]
           (xf [.elem "geom"
                  [("name", "base_mesh"), ("type", "mesh"), ("mesh", "base"),
                   ("material", "color_0"), ("pos", "1 2 3"), ("quat", "1 0 0 0")] .nil,
                .elem "freejoint" [("name", "base_joint")] .nil])])

/-- Witness for claim C1 at the concrete one-part scene. -/
theorem scene_bodies_match_topology_witness :
    body_forest W1 = [label_tree root1] ∧ body_count W1 = node_count root1 :=
  scene_bodies_match_topology parts1 docs1 root1 W1 (by rfl)

/-- Witness for claim C2: the body attribute map of the concrete scene
carries position `1 2 3` (= absolute position minus the zero anchor). -/
theorem scene_body_positions_witness :
    dict_lookup [("name", "base"), ("pos", "1 2 3"), ("quat", "1 0 0 0")] "pos" =
      some "1 2 3" := by
  have h := scene_body_positions parts1 docs1 root1 W1 vzero (by rfl) (by rfl)
  have hm := h [("name", "base"), ("pos", "1 2 3"), ("quat", "1 0 0 0")] (by decide)
  rcases hm with ⟨lbl, p, h1, h2, h3⟩
  obtain rfl : lbl = "base" := Option.some.inj (h1.symm.trans (by decide))
  obtain rfl : p = part_base :=
    (Option.some.inj ((by decide :
      alist_get parts1 "base" = some part_base).symm.trans h2)).symm
  exact h3.trans (by decide)

/-- Claim C3: the quaternion reindexing maps `(x,y,z,w)` to `(w,x,y,z)`,
is a bijection on 4-tuples, composes with its true inverse permutation
to the identity, and is NOT an involution: applying the forward
permutation twice moves some quaternion. -/
theorem quat_reindex_properties :
    (∀ x y z w : Frac, convert_quat_to_mujoco (x, y, z, w) = (w, x, y, z)) ∧
    Function.Bijective convert_quat_to_mujoco ∧
    (∀ q, reindex_inverse (convert_quat_to_mujoco q) = q) ∧
    (∃ q, convert_quat_to_mujoco (convert_quat_to_mujoco q) ≠ q) := by
  refine ⟨fun x y z w => rfl, ?_, fun q => rfl, ?_⟩
  · rw [Function.bijective_iff_has_inverse]
    exact ⟨reindex_inverse, fun q => rfl, fun q => rfl⟩
  · refine ⟨(fint 1, fint 0, fint 0, fint 0), ?_⟩
    decide

/-- Witness for claim C3 at concrete quaternions. -/
theorem quat_reindex_properties_witness :
    convert_quat_to_mujoco (fint 1, fint 2, fint 3, fint 4) =
      (fint 4, fint 1, fint 2, fint 3) ∧
    reindex_inverse (convert_quat_to_mujoco (fint 5, fint 6, fint 7, fint 8)) =
      (fint 5, fint 6, fint 7, fint 8) :=
  ⟨quat_reindex_properties.1 (fint 1) (fint 2) (fint 3) (fint 4),
   quat_reindex_properties.2.2.1 (fint 5, fint 6, fint 7, fint 8)⟩

/-- With no parent information (`pInfo = none`), reaching an `axis`
parameter makes the joint parameter loop fail: the source dereferences
`parent_rot`/`parent_src_file`, which are `None` at the root. -/
theorem process_joint_params_axis_no_parent (ctx : Ctx) (attrib : List (String × String))
    (ps : List (String × Value)) (hax : "axis" ∈ ps.map Prod.fst) :
    process_joint_params ctx none attrib ps = none := by
  induction ps generalizing attrib with
  | nil => simp at hax
  | cons kv rest ih =>
    match kv with
    | (k, v) =>
      by_cases hk : k = "axis"
      · subst hk
        simp [process_joint_params, Option.bind]
      · rw [process_joint_params, if_neg hk]
        apply ih
        simp only [List.map_cons, List.mem_cons] at hax
        rcases hax with h1 | h1
        · exact absurd h1.symm hk
        · exact h1

/-- A non-free joint whose parameters include `axis` cannot be emitted
without a parent. -/
theorem joint_elems_none_no_parent (ctx : Ctx) (posStr label : String) (j : Joint)
    (ps : List (String × Value)) (hfree : j.type ≠ "freejoint")
    (hps : j.parameters = some ps) (hax : "axis" ∈ ps.map Prod.fst) :
    joint_elems ctx none posStr label (some j) = none := by
  simp [joint_elems, hfree, hps, process_joint_params_axis_no_parent ctx _ ps hax,
    Option.bind]

/-- Claim C10: compiling a topology whose ROOT joint is non-free and
carries an `axis` parameter always aborts: the root call binds the
parent orientation to `None`, and the axis-resolution branch
unconditionally applies that parent orientation, so the error branch is
reached (nothing guards it).  Compilation of the root is total only
under the precondition that the root joint is free or names no axis. -/
theorem root_axis_parameter_aborts (parts : PartCatalog) (docs : DocStore)
    (root : BodyNode) (j : Joint) (ps : List (String × Value))
    (hj : root.joint = some j) (hfree : j.type ≠ "freejoint")
    (hps : j.parameters = some ps) (hax : "axis" ∈ ps.map Prod.fst) :
    add_bodies parts docs root = none := by
  rw [add_bodies]
  cases hext : get_xyz_extent parts with
  | none => simp [Option.bind]
  | some ext =>
    simp only [Option.bind]
    cases hra : resolve_root_anchor parts docs root with
    | none => simp [Option.bind]
    | some rootBase =>
      simp only [Option.bind]
      have hnone : add_body_to_tree ⟨parts, docs, rootBase⟩ none root = none := by
        cases root with
        | mk label rj children =>
          simp only [BodyNode.joint] at hj
          subst hj
          rw [add_body_to_tree]
          simp only [parent_data, Option.bind]
          cases hpart : alist_get parts label with
          | none => simp [Option.bind]
          | some part =>
            simp only [Option.bind, label_to_color_name, hpart, Option.map]
            rw [joint_elems_none_no_parent _ _ _ j ps hfree hps hax]
      rw [hnone]

/-- A topology whose root joint is a hinge with an `axis` parameter. -/
def root_axis_example : BodyNode :=
  .mk "base"
    (some { type := "hinge", position := none,
            parameters := some [("axis", Value.scalar (Scalar.str "datumA"))] }) .nil

/-- Witness for claim C10: the concrete hinge-with-axis root aborts the
compile. -/
theorem root_axis_parameter_aborts_witness :
    add_bodies parts1 docs1 root_axis_example = none :=
  root_axis_parameter_aborts parts1 docs1 root_axis_example
    { type := "hinge", position := none,
      parameters := some [("axis", Value.scalar (Scalar.str "datumA"))] }
    [("axis", Value.scalar (Scalar.str "datumA"))] (by rfl) (by decide) (by rfl) (by decide)

theorem dict_lookup_insert_self (l : List (String × String)) (k v : String) :
    dict_lookup (dict_insert l k v) k = some v := by
  induction l with
  | nil => simp [dict_insert, dict_lookup]
  | cons p rest ih =>
    match p with
    | (a, b) =>
      by_cases hak : a = k
      · subst hak
        simp [dict_insert, dict_lookup]
      · simp [dict_insert, dict_lookup, hak, ih]

theorem dict_lookup_insert_ne (l : List (String × String)) (k v k2 : String)
    (h : k2 ≠ k) : dict_lookup (dict_insert l k v) k2 = dict_lookup l k2 := by
  induction l with
  | nil =>
    simp only [dict_insert, dict_lookup]
    rw [if_neg (Ne.symm h)]
  | cons p rest ih =>
    match p with
    | (a, b) =>
      by_cases hak : a = k
      · subst hak
        simp [dict_insert, dict_lookup, Ne.symm h]
      · simp only [dict_insert, if_neg hak, dict_lookup]
        by_cases hak2 : a = k2
        · simp [hak2]
        · simp [hak2, ih]

/-- Keys not named by any remaining parameter survive the joint
parameter loop untouched. -/
theorem process_joint_params_preserves (ctx : Ctx) (pInfo : Option (String × Rotation))
    (kk : String) :
    ∀ attrib ps attrib2, process_joint_params ctx pInfo attrib ps = some attrib2 →
      kk ∉ ps.map Prod.fst → dict_lookup attrib2 kk = dict_lookup attrib kk := by
  intro attrib ps
  induction ps generalizing attrib with
  | nil =>
    intro attrib2 h _
    simp only [process_joint_params, Option.some.injEq] at h
    subst h
    rfl
  | cons kv rest ih =>
    intro attrib2 h hkk
    match kv, hkk, h with
    | (k, v), hkk, h =>
      simp only [List.map_cons, List.mem_cons, not_or] at hkk
      obtain ⟨hk1, hk2⟩ := hkk
      by_cases hax : k = "axis"
      · subst hax
        rw [process_joint_params, if_pos rfl] at h
        cases pInfo with
        | none => simp [Option.bind] at h
        | some pd =>
          simp only [Option.bind] at h
          cases hd : get_datum_line_vector ctx.docs pd.1 v with
          | none => rw [hd] at h; simp [Option.bind] at h
          | some av =>
            rw [hd] at h
            simp only [Option.bind] at h
            rw [ih _ _ h hk2, dict_lookup_insert_ne _ _ _ _ hk1,
              dict_lookup_insert_ne _ _ _ _ hk1]
      · rw [process_joint_params, if_neg hax] at h
        rw [ih _ _ h hk2, dict_lookup_insert_ne _ _ _ _ hk1,
          dict_lookup_insert_ne _ _ _ _ hk1]

/-- Claim C8, amended: (i) a `freejoint`-type joint emits exactly a bare
`freejoint` element named `<label>_joint`, carrying neither a pivot
position nor an axis attribute, regardless of any parameters the input
spec supplies; (ii) for a non-free joint the emitted `joint` element's
`pos` attribute equals the body's own (anchor-shifted) position string
PROVIDED the parameter map itself has no `pos` entry - a `pos`
parameter overwrites the pivot (the correction the counterexample
forces). -/
theorem free_joint_and_pivot :
    (∀ (ctx : Ctx) (pInfo : Option (String × Rotation)) (posStr label : String) (j : Joint),
       j.type = "freejoint" →
       joint_elems ctx pInfo posStr label (some j) =
         some (xf [XmlNode.elem "freejoint" [("name", label ++ "_joint")] .nil]) ∧
       dict_lookup [("name", label ++ "_joint")] "pos" = none ∧
       dict_lookup [("name", label ++ "_joint")] "axis" = none) ∧
    (∀ (ctx : Ctx) (pInfo : Option (String × Rotation)) (posStr label : String)
       (j : Joint) (jE : XmlForest),
       j.type ≠ "freejoint" →
       (∀ ps, j.parameters = some ps → "pos" ∉ ps.map Prod.fst) →
       joint_elems ctx pInfo posStr label (some j) = some jE →
       ∃ a, jE = xf [XmlNode.elem "joint" a .nil] ∧ dict_lookup a "pos" = some posStr) := by
  constructor
  · intro ctx pInfo posStr label j hf
    refine ⟨by simp [joint_elems, hf], by simp [dict_lookup], by simp [dict_lookup]⟩
  · intro ctx pInfo posStr label j jE hfree hnp h
    simp only [joint_elems, if_neg hfree] at h
    cases hp : j.parameters with
    | none =>
      rw [hp] at h
      simp only [Option.bind, Option.some.injEq] at h
      subst h
      refine ⟨[("name", label ++ "_joint"), ("type", j.type), ("pos", posStr)], rfl, ?_⟩
      simp [dict_lookup]
    | some ps =>
      rw [hp] at h
      dsimp only at h
      cases hpr : process_joint_params ctx pInfo
          [("name", label ++ "_joint"), ("type", j.type), ("pos", posStr)] ps with
      | none => rw [hpr] at h; simp [Option.bind] at h
      | some attrib =>
        rw [hpr] at h
        simp only [Option.bind, Option.some.injEq] at h
        subst h
        refine ⟨attrib, rfl, ?_⟩
        rw [process_joint_params_preserves ctx pInfo "pos" _ _ _ hpr (hnp ps hp)]
        simp [dict_lookup]

/-- A root topology node whose non-free joint supplies an explicit `pos`
parameter. -/
def root2 : BodyNode :=
  .mk "base"
    (some { type := "hinge", position := none,
            parameters := some [("pos", Value.vlist [.int 9, .int 9, .int 9])] }) .nil

/-- The scene emitted for `root2`: the joint's `pos` is the parameter
value `9 9 9`, not the body position `1 2 3`. -/
def W2 : XmlNode :=
  .elem "worldbody" []
    (xf [.elem "geom"
           [("name", "floor"), ("type", "plane"), ("material", "grid"),
            ("condim", "3"), ("size", "20 20 0.05")] .nil,
         .elem "light"
           [("name", "spotlight"), ("mode", "targetbodycom"),
            ("diffuse", "0.8 0.8 0.8"), ("specular", "0.2 0.2 0.2"),
            ("pos", "3 3 3"), ("cutoff", "4"), ("target", "base")] .nil,
         .elem "body" [("name", "base"), ("pos", "1 2 3"), ("quat", "1 0 0 0")]
           (xf [.elem "geom"
                  [("name", "base_mesh"), ("type", "mesh"), ("mesh", "base"),
                   ("material", "color_0"), ("pos", "1 2 3"), ("quat", "1 0 0 0")] .nil,
                .elem "joint"
                  [("name", "base_joint"), ("type", "hinge"), ("pos", "9 9 9")] .nil])])

/-- Counterexample to claim C8 as stated: compiling `root2` succeeds and
emits the joint attribute map `[("name","base_joint"), ("type","hinge"),
("pos","9 9 9")]` (visible inside `W2`), whose pivot position `9 9 9`
differs from the body's own anchor-shifted position `1 2 3` - a `pos`
entry in the parameter map overwrites the pivot. -/
theorem pivot_overwritten_by_pos_parameter :
    add_bodies parts1 docs1 root2 = some W2 ∧
    dict_lookup [("name", "base_joint"), ("type", "hinge"), ("pos", "9 9 9")] "pos" =
      some "9 9 9" ∧
    dict_lookup [("name", "base"), ("pos", "1 2 3"), ("quat", "1 0 0 0")] "pos" =
      some "1 2 3" ∧
    ("9 9 9" : String) ≠ "1 2 3" :=
  ⟨by rfl, by decide, by decide, by decide⟩

/-- Witness for claim C8: a free joint carrying an (ignored) axis
parameter still emits the bare `freejoint` element. -/
theorem free_joint_and_pivot_witness :
    joint_elems ⟨parts1, docs1, vzero⟩ none "1 2 3" "base"
        (some { type := "freejoint", position := none,
                parameters := some [("axis", Value.scalar (Scalar.str "datumA"))] }) =
      some (xf [XmlNode.elem "freejoint" [("name", "base" ++ "_joint")] .nil]) :=
  (free_joint_and_pivot.1 ⟨parts1, docs1, vzero⟩ none "1 2 3" "base"
    { type := "freejoint", position := none,
      parameters := some [("axis", Value.scalar (Scalar.str "datumA"))] } rfl).1

/-- An `axis` parameter whose value is not a resolvable label (a literal
list or number instead of a datum name) makes the joint parameter loop
fail: the source passes the raw value to the document lookup, which can
only match string labels. -/
theorem process_joint_params_axis_literal (ctx : Ctx) (pInfo : Option (String × Rotation))
    (v : Value) (hlit : value_label v = none) :
    ∀ attrib ps, ("axis", v) ∈ ps → process_joint_params ctx pInfo attrib ps = none := by
  intro attrib ps
  induction ps generalizing attrib with
  | nil => intro hmem; simp at hmem
  | cons kv rest ih =>
    intro hmem
    match kv, hmem with
    | (k, v2), hmem =>
      by_cases hax : k = "axis"
      · subst hax
        rw [process_joint_params, if_pos rfl]
        cases pInfo with
        | none => simp [Option.bind]
        | some pd =>
          rcases List.mem_cons.mp hmem with heq | hmem2
          · have hv : v = v2 := by
              injection heq with h1 h2
            subst hv
            simp [get_datum_line_vector, get_placement_rotation, hlit, Option.bind]
          · simp only [Option.bind]
            cases hd : get_datum_line_vector ctx.docs pd.1 v2 with
            | none => simp [Option.bind]
            | some av => exact ih _ hmem2
      · rw [process_joint_params, if_neg hax]
        rcases List.mem_cons.mp hmem with heq | hmem2
        · exfalso
          apply hax
          injection heq with h1 h2
          exact h1.symm
        · exact ih _ hmem2

/-- When the parameter map (with distinct keys) names an `axis` whose
datum resolves to `av`, the joint attribute map ends up carrying
`axis = parentRotation · av`. -/
theorem process_joint_params_axis_resolved (ctx : Ctx) (pd : String × Rotation)
    (v : Value) (av : Vec3) (hav : get_datum_line_vector ctx.docs pd.1 v = some av) :
    ∀ attrib ps attrib2, process_joint_params ctx (some pd) attrib ps = some attrib2 →
      ("axis", v) ∈ ps → (ps.map Prod.fst).Nodup →
      dict_lookup attrib2 "axis" = some (vector_to_str (pd.2.multVec av)) := by
  intro attrib ps
  induction ps generalizing attrib with
  | nil =>
    intro attrib2 _ hmem _
    simp at hmem
  | cons kv rest ih =>
    intro attrib2 h hmem hnodup
    match kv, h, hmem, hnodup with
    | (k, v2), h, hmem, hnodup =>
      rw [List.map_cons, List.nodup_cons] at hnodup
      obtain ⟨hk_not, hnodup2⟩ := hnodup
      rcases List.mem_cons.mp hmem with heq | hmem2
      · obtain ⟨hk, hv⟩ : "axis" = k ∧ v = v2 := by
          constructor
          · injection heq with h1 h2
          · injection heq with h1 h2
        subst hk
        subst hv
        rw [process_joint_params, if_pos rfl] at h
        simp only [Option.bind, hav] at h
        rw [process_joint_params_preserves ctx (some pd) "axis" _ _ _ h hk_not]
        exact dict_lookup_insert_self _ _ _
      · by_cases hax : k = "axis"
        · subst hax
          exfalso
          exact hk_not (List.mem_map.mpr ⟨("axis", v), hmem2, rfl⟩)
        · rw [process_joint_params, if_neg hax] at h
          exact ih _ _ h hmem2 hnodup2

def first_joint_attrib : XmlForest → Option (List (String × String))
  | .nil => none
  | .cons x rest =>
    if tag_of x = "joint" then some (attrib_of x) else first_joint_attrib rest

/-- The attribute map of the first directly nested `joint` element of a
body element (the only one the compiler ever emits per body). -/
def joint_attrib_of (x : XmlNode) : Option (List (String × String)) :=
  first_joint_attrib (children_of x)

/-- Claim C4, amended: (i) when a non-free joint's parameter map names
an axis reference (with distinct parameter keys), the emitted `axis`
attribute equals the named datum's local +Z direction rotated into the
global frame by the PARENT node's orientation; (ii) when the axis value
is a literal (non-label) value such as a numeric vector, it is NOT used
unmodified - the compiler still treats it as a datum label, so the
lookup fails and the compile of that body aborts. -/
theorem axis_resolution :
    (∀ (ctx : Ctx) (plabel : String) (pp : PartData) (b : BodyNode) (x : XmlNode)
       (j : Joint) (ps : List (String × Value)) (v : Value) (av : Vec3),
       alist_get ctx.parts plabel = some pp →
       add_body_to_tree ctx (some plabel) b = some x →
       b.joint = some j → j.type ≠ "freejoint" → j.parameters = some ps →
       ("axis", v) ∈ ps → (ps.map Prod.fst).Nodup →
       get_datum_line_vector ctx.docs pp.srcFile v = some av →
       ∃ a, joint_attrib_of x = some a ∧
         dict_lookup a "axis" = some (vector_to_str (pp.placement.rot.multVec av))) ∧
    (∀ (ctx : Ctx) (parent : Option String) (b : BodyNode) (j : Joint)
       (ps : List (String × Value)) (v : Value),
       b.joint = some j → j.type ≠ "freejoint" → j.parameters = some ps →
       ("axis", v) ∈ ps → value_label v = none →
       add_body_to_tree ctx parent b = none) := by
  constructor
  · intro ctx plabel pp b x j ps v av hpp h hj hfree hps hmem hnodup hav
    cases b with
    | mk label rj children =>
      simp only [BodyNode.joint] at hj
      subst hj
      rw [add_body_to_tree] at h
      simp only [parent_data, hpp, Option.map, Option.bind] at h
      cases hpart : alist_get ctx.parts label with
      | none => rw [hpart] at h; simp [Option.bind] at h
      | some part =>
        rw [hpart] at h
        simp only [Option.bind, label_to_color_name, hpart, Option.map] at h
        cases hje : joint_elems ctx (some (pp.srcFile, pp.placement.rot))
            (vector_to_str (vsub part.placement.base ctx.rootBase)) label (some j) with
        | none => rw [hje] at h; simp [Option.bind] at h
        | some jE =>
          rw [hje] at h
          simp only [Option.bind] at h
          cases hcl : add_body_list ctx label children with
          | none => rw [hcl] at h; simp [Option.bind] at h
          | some childElems =>
            rw [hcl] at h
            simp only [Option.bind, Option.some.injEq] at h
            subst h
            simp only [joint_elems, if_neg hfree, hps] at hje
            cases hpr : process_joint_params ctx (some (pp.srcFile, pp.placement.rot))
                [("name", label ++ "_joint"), ("type", j.type),
                 ("pos", vector_to_str (vsub part.placement.base ctx.rootBase))] ps with
            | none => rw [hpr] at hje; simp [Option.bind] at hje
            | some attrib =>
              rw [hpr] at hje
              simp only [Option.bind, Option.some.injEq] at hje
              subst hje
              refine ⟨attrib, ?_, ?_⟩
              · simp [joint_attrib_of, children_of, first_joint_attrib, tag_of,
                  attrib_of, xf, XmlForest.append]
              · exact process_joint_params_axis_resolved ctx
                  (pp.srcFile, pp.placement.rot) v av hav _ _ _ hpr hmem hnodup
  · intro ctx parent b j ps v hj hfree hps hmem hlit
    cases b with
    | mk label rj children =>
      simp only [BodyNode.joint] at hj
      subst hj
      rw [add_body_to_tree]
      cases hpd : parent_data ctx parent with
      | none => simp [Option.bind]
      | some pInfo =>
        simp only [Option.bind]
        cases hpart : alist_get ctx.parts label with
        | none => simp [Option.bind]
        | some part =>
          simp only [Option.bind, label_to_color_name, hpart, Option.map]
          have hje : joint_elems ctx pInfo
              (vector_to_str (vsub part.placement.base ctx.rootBase)) label (some j) = none := by
            simp only [joint_elems, if_neg hfree, hps]
            rw [process_joint_params_axis_literal ctx pInfo v hlit _ ps hmem]
            rfl
          rw [hje]

/-- Second witness part: a child body under `base`. -/
def part_arm : PartData :=
  { srcFile := "arm.FCStd"
    placement := { base := ⟨fint 4, fint 5, fint 6⟩, rot := rot_id }
    shapeColor := (fint 0, fint 0, fint 1, fint 1)
    bbox := ⟨fint 0, fint 1, fint 0, fint 1, fint 0, fint 1⟩ }

def parts2 : PartCatalog := [("base", part_base), ("arm", part_arm)]

/-- Documents for the two-part witness: the base part's file contains a
datum object `datumA` with identity rotation. -/
def docs2 : DocStore :=
  ⟨[("base.FCStd", [("datumA", { base := vzero, rot := rot_id })])]⟩

def ctx2 : Ctx := ⟨parts2, docs2, vzero⟩

/-- A child node with a hinge joint whose axis names the parent datum. -/
def armNode : BodyNode :=
  .mk "arm"
    (some { type := "hinge", position := none,
            parameters := some [("axis", Value.scalar (Scalar.str "datumA"))] }) .nil

/-- The body element emitted for `armNode` under parent `base`. -/
def Xarm : XmlNode :=
  .elem "body" [("name", "arm"), ("pos", "4 5 6"), ("quat", "1 0 0 0")]
    (xf [.elem "geom"
           [("name", "arm_mesh"), ("type", "mesh"), ("mesh", "arm"),
            ("material", "color_1"), ("pos", "4 5 6"), ("quat", "1 0 0 0")] .nil,
         .elem "joint"
           [("name", "arm_joint"), ("type", "hinge"), ("pos", "4 5 6"),
            ("axis", "0 0 1")] .nil])

/-- Counterexample to claim C4 as stated: a joint whose `axis` parameter
is the literal numeric vector `[1, 0, 0]` is NOT emitted with that
vector unmodified - the compiler passes the literal to the datum lookup
as if it were a label, the lookup fails, and the body's compilation
aborts (no element at all; the claim would require an element with
`axis = "1 0 0"`). -/
theorem literal_axis_not_used_unmodified :
    add_body_to_tree ctx2 (some "base")
      (.mk "arm"
        (some { type := "hinge", position := none,
                parameters := some [("axis", Value.vlist [.int 1, .int 0, .int 0])] }) .nil)
      = none := by rfl

/-- Witness for claim C4: the named-axis child emits
`axis = parentRotation · (0,0,1) = "0 0 1"`. -/
theorem axis_resolution_witness :
    ((joint_attrib_of Xarm).map fun a => dict_lookup a "axis") = some (some "0 0 1") := by
  obtain ⟨a, h1, h2⟩ := axis_resolution.1 ctx2 "base" part_base armNode Xarm
    { type := "hinge", position := none,
      parameters := some [("axis", Value.scalar (Scalar.str "datumA"))] }
    [("axis", Value.scalar (Scalar.str "datumA"))]
    (Value.scalar (Scalar.str "datumA")) ⟨fint 0, fint 0, fint 1⟩
    (by decide) (by rfl) (by rfl) (by decide) (by rfl) (by decide) (by decide) (by decide)
  rw [h1]
  simp only [Option.map]
  rw [h2]
  decide

/-- In a parameter map with distinct keys, a key determines its value. -/
theorem nodup_keys_value_unique {α : Type} (ps : List (String × α))
    (h : (ps.map Prod.fst).Nodup) (k : String) (a b : α)
    (ha : (k, a) ∈ ps) (hb : (k, b) ∈ ps) : a = b := by
  induction ps with
  | nil => simp at ha
  | cons p rest ih =>
    rw [List.map_cons, List.nodup_cons] at h
    obtain ⟨hk, h2⟩ := h
    rcases List.mem_cons.mp ha with ha1 | ha2
    · rcases List.mem_cons.mp hb with hb1 | hb2
      · rw [← ha1] at hb1
        injection hb1 with e1 e2
        exact e2.symm
      · exfalso
        apply hk
        rw [← ha1]
        exact List.mem_map.mpr ⟨(k, b), hb2, rfl⟩
    · rcases List.mem_cons.mp hb with hb1 | hb2
      · exfalso
        apply hk
        rw [← hb1]
        exact List.mem_map.mpr ⟨(k, a), ha2, rfl⟩
      · exact ih h2 ha2 hb2

/-- Keys not named by any remaining parameter survive the equality
parameter loop untouched. -/
theorem process_equality_params_preserves (parts : PartCatalog) (docs : DocStore)
    (allP : List (String × Value)) (kk : String) :
    ∀ attrib ps attrib2, process_equality_params parts docs allP attrib ps = some attrib2 →
      kk ∉ ps.map Prod.fst → dict_lookup attrib2 kk = dict_lookup attrib kk := by
  intro attrib ps
  induction ps generalizing attrib with
  | nil =>
    intro attrib2 h _
    simp only [process_equality_params, Option.some.injEq] at h
    subst h
    rfl
  | cons kv rest ih =>
    intro attrib2 h hkk
    match kv, h, hkk with
    | (k, v), h, hkk =>
      simp only [List.map_cons, List.mem_cons, not_or] at hkk
      obtain ⟨hk1, hk2⟩ := hkk
      by_cases hanch : k = "anchor"
      · subst hanch
        rw [process_equality_params, if_pos rfl] at h
        cases hb2v : alist_get allP "body2" with
        | none => rw [hb2v] at h; simp [Option.bind] at h
        | some b2v =>
          rw [hb2v] at h
          simp only [Option.bind] at h
          cases hb2 : value_label b2v with
          | none => rw [hb2] at h; simp [Option.bind] at h
          | some b2 =>
            rw [hb2] at h
            simp only [Option.bind] at h
            cases hp2 : alist_get parts b2 with
            | none => rw [hp2] at h; simp [Option.bind] at h
            | some p2 =>
              rw [hp2] at h
              simp only [Option.bind] at h
              cases hres : get_placement_base_vector docs p2.srcFile v with
              | none => rw [hres] at h; simp [Option.bind] at h
              | some a =>
                rw [hres] at h
                simp only [Option.bind] at h
                rw [ih _ _ h hk2, dict_lookup_insert_ne _ _ _ _ hk1]
      · rw [process_equality_params, if_neg hanch] at h
        rw [ih _ _ h hk2, dict_lookup_insert_ne _ _ _ _ hk1]

/-- The equality parameter loop succeeds whenever the (unique) anchor
value resolves through the body2 chain. -/
theorem process_equality_params_total (parts : PartCatalog) (docs : DocStore)
    (ps0 : List (String × Value)) (av b2v : Value) (b2 : String) (p2 : PartData) (a : Vec3)
    (hb2v : alist_get ps0 "body2" = some b2v)
    (hb2 : value_label b2v = some b2)
    (hp2 : alist_get parts b2 = some p2)
    (ha : get_placement_base_vector docs p2.srcFile av = some a) :
    ∀ ps attrib, (∀ v2, ("anchor", v2) ∈ ps → v2 = av) →
      ∃ attrib2, process_equality_params parts docs ps0 attrib ps = some attrib2 := by
  intro ps
  induction ps with
  | nil => exact fun attrib _ => ⟨attrib, rfl⟩
  | cons kv rest ih =>
    intro attrib hv
    match kv, hv with
    | (k, v), hv =>
      by_cases hanch : k = "anchor"
      · subst hanch
        have hva : v = av := hv v (List.mem_cons_self _ _)
        subst hva
        rw [process_equality_params, if_pos rfl, hb2v]
        simp only [Option.bind]
        rw [hb2]
        simp only [Option.bind]
        rw [hp2]
        simp only [Option.bind]
        rw [ha]
        simp only [Option.bind]
        exact ih _ fun v2 hm => hv v2 (List.mem_cons_of_mem _ hm)
      · rw [process_equality_params, if_neg hanch]
        exact ih _ fun v2 hm => hv v2 (List.mem_cons_of_mem _ hm)

/-- Under distinct keys, the anchor attribute ends up carrying
`R · a + T` of the second body. -/
theorem process_equality_params_anchor (parts : PartCatalog) (docs : DocStore)
    (ps0 : List (String × Value)) (av b2v : Value) (b2 : String) (p2 : PartData) (a : Vec3)
    (hb2v : alist_get ps0 "body2" = some b2v)
    (hb2 : value_label b2v = some b2)
    (hp2 : alist_get parts b2 = some p2)
    (ha : get_placement_base_vector docs p2.srcFile av = some a) :
    ∀ ps attrib attrib2, process_equality_params parts docs ps0 attrib ps = some attrib2 →
      ("anchor", av) ∈ ps → (ps.map Prod.fst).Nodup →
      dict_lookup attrib2 "anchor" =
        some (vector_to_str (vadd (p2.placement.rot.multVec a) p2.placement.base)) := by
  intro ps
  induction ps with
  | nil =>
    intro attrib attrib2 _ hmem _
    simp at hmem
  | cons kv rest ih =>
    intro attrib attrib2 h hmem hnodup
    match kv, h, hmem, hnodup with
    | (k, v), h, hmem, hnodup =>
      rw [List.map_cons, List.nodup_cons] at hnodup
      obtain ⟨hk_not, hnodup2⟩ := hnodup
      rcases List.mem_cons.mp hmem with heq | hmem2
      · obtain ⟨hk, hv⟩ : "anchor" = k ∧ av = v := by
          constructor
          · injection heq with h1 h2
          · injection heq with h1 h2
        subst hk
        subst hv
        rw [process_equality_params, if_pos rfl, hb2v] at h
        simp only [Option.bind] at h
        rw [hb2] at h
        simp only [Option.bind] at h
        rw [hp2] at h
        simp only [Option.bind] at h
        rw [ha] at h
        simp only [Option.bind] at h
        rw [process_equality_params_preserves parts docs ps0 "anchor" _ _ _ h hk_not]
        exact dict_lookup_insert_self _ _ _
      · by_cases hanch : k = "anchor"
        · subst hanch
          exfalso
          exact hk_not (List.mem_map.mpr ⟨("anchor", av), hmem2, rfl⟩)
        · rw [process_equality_params, if_neg hanch] at h
          exact ih _ _ h hmem2 hnodup2

/-- Under distinct keys, every non-anchor parameter is copied through
with the standard value encoding. -/
theorem process_equality_params_copy (parts : PartCatalog) (docs : DocStore)
    (ps0 : List (String × Value)) (k : String) (v : Value) (hkne : k ≠ "anchor") :
    ∀ ps attrib attrib2, process_equality_params parts docs ps0 attrib ps = some attrib2 →
      (k, v) ∈ ps → (ps.map Prod.fst).Nodup →
      dict_lookup attrib2 k = some (convert_value_to_mujoco_xml v) := by
  intro ps
  induction ps with
  | nil =>
    intro attrib attrib2 _ hmem _
    simp at hmem
  | cons kv rest ih =>
    intro attrib attrib2 h hmem hnodup
    match kv, h, hmem, hnodup with
    | (k1, v1), h, hmem, hnodup =>
      rw [List.map_cons, List.nodup_cons] at hnodup
      obtain ⟨hk_not, hnodup2⟩ := hnodup
      rcases List.mem_cons.mp hmem with heq | hmem2
      · obtain ⟨hk, hv⟩ : k = k1 ∧ v = v1 := by
          constructor
          · injection heq with h1 h2
          · injection heq with h1 h2
        subst hk
        subst hv
        rw [process_equality_params, if_neg hkne] at h
        rw [process_equality_params_preserves parts docs ps0 k _ _ _ h hk_not]
        exact dict_lookup_insert_self _ _ _
      · by_cases hanch : k1 = "anchor"
        · subst hanch
          rw [process_equality_params, if_pos rfl] at h
          cases hb2v : alist_get ps0 "body2" with
          | none => rw [hb2v] at h; simp [Option.bind] at h
          | some b2v =>
            rw [hb2v] at h
            simp only [Option.bind] at h
            cases hb2 : value_label b2v with
            | none => rw [hb2] at h; simp [Option.bind] at h
            | some b2 =>
              rw [hb2] at h
              simp only [Option.bind] at h
              cases hp2 : alist_get parts b2 with
              | none => rw [hp2] at h; simp [Option.bind] at h
              | some p2 =>
                rw [hp2] at h
                simp only [Option.bind] at h
                cases hres : get_placement_base_vector docs p2.srcFile v1 with
                | none => rw [hres] at h; simp [Option.bind] at h
                | some a =>
                  rw [hres] at h
                  simp only [Option.bind] at h
                  exact ih _ _ h hmem2 hnodup2
        · rw [process_equality_params, if_neg hanch] at h
          exact ih _ _ h hmem2 hnodup2

/-- Claim C6: for an equality declaration whose parameters (with
distinct keys) name an anchor local to its second body, the emitted
element is tagged by the declaration's type, its `anchor` attribute
equals `R · a + T` (R, T the second body's rotation and translation, `a`
the anchor resolved in that body's source document), and every other
parameter is copied through with the standard value encoding. -/
theorem equality_anchor_resolution (parts : PartCatalog) (docs : DocStore)
    (e : EqualityDecl) (ps : List (String × Value)) (av b2v : Value) (b2 : String)
    (p2 : PartData) (a : Vec3)
    (hps : e.parameters = some ps) (hnodup : (ps.map Prod.fst).Nodup)
    (hmem : ("anchor", av) ∈ ps)
    (hb2v : alist_get ps "body2" = some b2v)
    (hb2 : value_label b2v = some b2)
    (hp2 : alist_get parts b2 = some p2)
    (ha : get_placement_base_vector docs p2.srcFile av = some a) :
    ∃ attrib, emit_equality parts docs e = some (XmlNode.elem e.type attrib .nil) ∧
      dict_lookup attrib "anchor" =
        some (vector_to_str (vadd (p2.placement.rot.multVec a) p2.placement.base)) ∧
      ∀ kv ∈ ps, kv.1 ≠ "anchor" →
        dict_lookup attrib kv.1 = some (convert_value_to_mujoco_xml kv.2) := by
  have hv : ∀ v2, ("anchor", v2) ∈ ps → v2 = av := fun v2 hm =>
    nodup_keys_value_unique ps hnodup "anchor" v2 av hm hmem
  obtain ⟨attrib2, hsucc⟩ :=
    process_equality_params_total parts docs ps av b2v b2 p2 a hb2v hb2 hp2 ha ps [] hv
  refine ⟨attrib2, ?_, ?_, ?_⟩
  · rw [emit_equality, hps]
    dsimp only
    rw [hsucc]
    rfl
  · exact process_equality_params_anchor parts docs ps av b2v b2 p2 a
      hb2v hb2 hp2 ha ps [] attrib2 hsucc hmem hnodup
  · intro kv hkv hkne
    exact process_equality_params_copy parts docs ps kv.1 kv.2 hkne ps [] attrib2
      hsucc (by rw [← Prod.mk.eta (p := kv)] at hkv; exact hkv) hnodup

def part_armB : PartData :=
  { srcFile := "armB.FCStd"
    placement := { base := ⟨fint 1, fint 1, fint 1⟩, rot := rot_id }
    shapeColor := (fint 0, fint 1, fint 0, fint 1)
    bbox := ⟨fint 0, fint 1, fint 0, fint 1, fint 0, fint 1⟩ }

def partsE : PartCatalog := [("armB", part_armB)]

/-- The second body's source document holds the local anchor point
`anchorPt` at (2,0,0). -/
def docsE : DocStore :=
  ⟨[("armB.FCStd", [("anchorPt", { base := ⟨fint 2, fint 0, fint 0⟩, rot := rot_id })])]⟩

def eC6 : EqualityDecl :=
  { type := "connect"
    parameters := some
      [("body1", Value.scalar (Scalar.str "armA")),
       ("body2", Value.scalar (Scalar.str "armB")),
       ("anchor", Value.scalar (Scalar.str "anchorPt"))] }

/-- Witness for claim C6: with the identity rotation and translation
(1,1,1), the local anchor (2,0,0) is emitted globally as `3 1 1`, and
the `body1` attribute is copied through. -/
theorem equality_anchor_resolution_witness :
    ((emit_equality partsE docsE eC6).map fun x => dict_lookup (attrib_of x) "anchor") =
      some (some "3 1 1") ∧
    ((emit_equality partsE docsE eC6).map fun x => dict_lookup (attrib_of x) "body1") =
      some (some "armA") := by
  obtain ⟨attrib, h1, h2, h3⟩ := equality_anchor_resolution partsE docsE eC6
    [("body1", Value.scalar (Scalar.str "armA")),
     ("body2", Value.scalar (Scalar.str "armB")),
     ("anchor", Value.scalar (Scalar.str "anchorPt"))]
    (Value.scalar (Scalar.str "anchorPt")) (Value.scalar (Scalar.str "armB")) "armB"
    part_armB ⟨fint 2, fint 0, fint 0⟩
    (by rfl) (by decide) (by decide) (by decide) (by decide) (by decide) (by decide)
  have h4 := h3 ("body1", Value.scalar (Scalar.str "armA")) (by decide) (by decide)
  constructor
  · rw [h1]
    simp only [Option.map, attrib_of]
    rw [h2]
    decide
  · rw [h1]
    simp only [Option.map, attrib_of]
    rw [h4]
    decide

/-- Counterexample to claim C7 as stated: the option block does NOT use
the value-encoding function.  A boolean option value is emitted as the
capitalized Python `str(True)` (the inline branch of `add_option` never
lowercases), while `convert_value_to_mujoco_xml` - which the claim says
is applied uniformly - would emit the lowercase word. -/
theorem option_block_not_uniformly_encoded :
    dict_lookup (option_attrib [("flag", Value.scalar (Scalar.bool true))]) "flag" =
      some "True" ∧
    convert_value_to_mujoco_xml (Value.scalar (Scalar.bool true)) = "true" ∧
    ("True" : String) ≠ "true" :=
  ⟨by decide, by decide, by decide⟩

/-- Claim C7, amended: `convert_value_to_mujoco_xml` (used for compiler
attributes and joint, equality and actuator parameters) encodes booleans
as the lowercase words, lists as their space-joined element-wise `str`,
and every non-boolean scalar as its ordinary string form - in
particular the integers 0 and 1 come out as "0" and "1", not as boolean
words, because `str(value).lower()` is the identity on digit strings.
The option block, however, uses its own inline encoding that never
lowercases, so a boolean option is emitted capitalized. -/
theorem value_encoding_amended :
    (∀ b : Bool, convert_value_to_mujoco_xml (.scalar (.bool b)) =
      (if b then "true" else "false")) ∧
    (∀ n : Int, convert_value_to_mujoco_xml (.scalar (.int n)) = toString n) ∧
    (∀ s : String, convert_value_to_mujoco_xml (.scalar (.str s)) = s) ∧
    (∀ xs : List Scalar, convert_value_to_mujoco_xml (.vlist xs) =
      join_space (xs.map py_str)) ∧
    (∀ b : Bool, option_value_str (.scalar (.bool b)) =
      (if b then "True" else "False")) := by
  refine ⟨?_, ?_, fun s => rfl, fun xs => rfl, ?_⟩
  · intro b
    cases b <;> decide
  · intro n
    by_cases h0 : n = 0
    · subst h0
      decide
    · by_cases h1 : n = 1
      · subst h1
        decide
      · have hb : py_in_true_false (Scalar.int n) = false := by
          simp [py_in_true_false]
          omega
        simp [convert_value_to_mujoco_xml, hb, py_str]
  · intro b
    cases b <;> decide

/-- Witness for claim C7 at concrete values. -/
theorem value_encoding_amended_witness :
    convert_value_to_mujoco_xml (Value.scalar (Scalar.int 0)) = toString (0 : Int) ∧
    option_value_str (Value.scalar (Scalar.bool true)) = (if true then "True" else "False") :=
  ⟨value_encoding_amended.2.1 0, value_encoding_amended.2.2.2.2 true⟩

def part_red : PartData :=
  { srcFile := "a.FCStd"
    placement := { base := vzero, rot := rot_id }
    shapeColor := (fint 1, fint 0, fint 0, fint 1)
    bbox := ⟨fint 0, fint 1, fint 0, fint 1, fint 0, fint 1⟩ }

def part_blue : PartData :=
  { srcFile := "b.FCStd"
    placement := { base := vzero, rot := rot_id }
    shapeColor := (fint 0, fint 0, fint 1, fint 1)
    bbox := ⟨fint 0, fint 1, fint 0, fint 1, fint 0, fint 1⟩ }

/-- The same two-part catalog in its two possible iteration orders. -/
def partsAB : PartCatalog := [("a", part_red), ("b", part_blue)]

def partsBA : PartCatalog := [("b", part_blue), ("a", part_red)]

/-- Claim C5 evidence (code bug): `get_color_list` converts an unordered
Python set straight to a list with NO sort, so palette indices follow
the set/insertion iteration order of the part catalog.  The same catalog
enumerated in the two opposite orders (a permutation, i.e. the same
parts) assigns part `a` the palette name `color_0` in one run and
`color_1` in the other - palette naming is not independent of input
iteration order, contradicting the fixed-total-sort determinism the
claim states (and which spec section 9 records as the known
nondeterminism bug to fix). -/
theorem palette_naming_depends_on_iteration_order :
    List.Perm partsAB partsBA ∧
    label_to_color_name partsAB "a" = some "color_0" ∧
    label_to_color_name partsBA "a" = some "color_1" :=
  ⟨by decide, by decide, by decide⟩

/-- The running child-block counter semantics: every processed B-block
tagged `child` - consecutive ones included - appends exactly one fresh
child field-map, so the final child list grows by the number of `child`
tags among the processed blocks. -/
theorem process_b_blocks_child_count (colC colD : List (Nat × String)) :
    ∀ blocks acc out, process_b_blocks colC colD blocks acc = some out →
      out.children.length =
        acc.children.length + (blocks.filter fun blk => blk.1 == "child").length := by
  intro blocks
  induction blocks with
  | nil =>
    intro acc out h
    simp only [process_b_blocks, Option.some.injEq] at h
    subst h
    simp
  | cons blk rest ih =>
    intro acc out h
    match blk, h with
    | (tag, lo, hi), h =>
      by_cases hp : tag = "parent"
      · subst hp
        rw [process_b_blocks, if_pos rfl] at h
        cases hcd : cd_pairs colC colD lo hi with
        | none => rw [hcd] at h; simp [Option.bind] at h
        | some pairs =>
          rw [hcd] at h
          simp only [Option.bind] at h
          rw [ih _ _ h]
          simp [List.filter_cons]
      · by_cases hc : tag = "child"
        · subst hc
          rw [process_b_blocks, if_neg (by decide), if_pos rfl] at h
          cases hcd : cd_pairs colC colD lo hi with
          | none => rw [hcd] at h; simp [Option.bind] at h
          | some pairs =>
            rw [hcd] at h
            simp only [Option.bind] at h
            rw [ih _ _ h]
            simp [List.filter_cons]
            omega
        · rw [process_b_blocks, if_neg hp, if_neg hc] at h
          rw [ih _ _ h]
          simp [List.filter_cons, hc]

/-- Claim C9 (spec-modelled; the tabular extractor is absent from
`src/`): the derived row range of a column-A entry at row `r` is
`[r+1, r2-1]` for the next entry's row `r2`, or `[r+1, maxRow]` for the
last entry; the child-block counter starts a fresh child field-map on
EVERY `child`-tagged B-entry, consecutive ones included; and on the
spec's concrete grid (A = J1@2, J2@10; B = parent@3, child@5, child@7;
max row 10) the range of J1 is rows 3-9 and exactly two separate child
field-maps (indices 0 and 1) are produced. -/
theorem tabular_extraction_properties :
    (∀ (r : Nat) (lbl : String) (r2 : Nat) (l2 : String)
       (rest : List (Nat × String)) (maxRow : Nat),
       block_ranges ((r, lbl) :: (r2, l2) :: rest) maxRow =
         (lbl, r + 1, r2 - 1) :: block_ranges ((r2, l2) :: rest) maxRow) ∧
    (∀ (r : Nat) (lbl : String) (maxRow : Nat),
       block_ranges [(r, lbl)] maxRow = [(lbl, r + 1, maxRow)]) ∧
    (∀ (colC colD : List (Nat × String)) (blocks : List (String × Nat × Nat))
       (acc out : LabelRecord), process_b_blocks colC colD blocks acc = some out →
       out.children.length =
         acc.children.length + (blocks.filter fun blk => blk.1 == "child").length) ∧
    block_ranges [(2, "J1"), (10, "J2")] 10 = [("J1", 3, 9), ("J2", 11, 10)] ∧
    extract_topology [(2, "J1"), (10, "J2")] [(3, "parent"), (5, "child"), (7, "child")]
        [] [] 10 =
      some [("J1", ⟨[], [[], []]⟩), ("J2", ⟨[], []⟩)] := by
  refine ⟨fun r lbl r2 l2 rest maxRow => rfl, fun r lbl maxRow => rfl,
    fun colC colD => process_b_blocks_child_count colC colD, by decide, by decide⟩

/-- Witness for claim C9: two consecutive `child` blocks yield two child
field-maps. -/
theorem tabular_extraction_properties_witness :
    (LabelRecord.mk [] [[], []]).children.length =
      (LabelRecord.mk [] []).children.length +
        (([("child", 4, 4), ("child", 6, 6)] :
            List (String × Nat × Nat)).filter fun blk => blk.1 == "child").length :=
  tabular_extraction_properties.2.2.1 [] [] [("child", 4, 4), ("child", 6, 6)]
    (LabelRecord.mk [] []) (LabelRecord.mk [] [[], []]) (by rfl)
